import Mathlib

/-!
Verification of the metrics sampling/aggregation/publishing pipeline of the
cloudwatch_metrics_agent repository.

The Rust sources are shallowly embedded:
* `f64` values are modelled as rationals (`ℚ`).  The agent's arithmetic on
  utilizations is sums, divisions, medians, maxima and comparisons of small
  non-negative values, all exactly representable in this model.  A reading
  that can be NaN (a per-core CPU percentage) is modelled as `Option ℚ`
  with `none` standing for NaN; `f64` sums propagate NaN, which the model
  mirrors by making the sum `none` as soon as one addend is `none`.
  Note that `ℚ` division by zero yields `0`, which coincides with the
  composition of `f64`'s `0.0 / 0.0 = NaN` with the agent's NaN-to-zero
  coercion; the fully infinite cases (positive numerator over a zero
  denominator) are excluded by the hypotheses of the theorems that touch
  them.
* `SystemTime` is modelled as a natural number.
* `rstats`'s `Medianf64::median` (middle element of the sorted values for an
  odd count, arithmetic mean of the two central elements for an even count)
  is modelled by `median` below, and `Vecops::minmax().max` by `listMax`.
* The asynchronous collector and publisher loops are modelled as functions
  consuming the sequence of values their channels deliver; the end of the
  input list models a closed channel.
-/

/-- Embedding of `Measurement` (src/metrics.rs).  `timestamp` is a
`SystemTime`, modelled as a natural number; the utilizations are `f64`,
modelled as rationals. -/
structure Measurement where
  timestamp : Nat
  mem_utilization : ℚ
  max_mem_utilization : ℚ
  cpu_utilization : ℚ
  sample_count : Nat
deriving DecidableEq

/-- Model of `rstats`'s `Medianf64::median` on a slice of `f64`: the middle
element of the ascending sorted values when the length is odd, the
arithmetic mean of the two central elements when the length is even.  This
is the textbook statistical median.  (On the empty list, where `rstats`
returns an error and `aggregate` never calls it, the junk value `0` is
returned.) -/
def median (l : List ℚ) : ℚ :=
  if l.length % 2 = 1 then (l.insertionSort (· ≤ ·)).getD (l.length / 2) 0
  else
    ((l.insertionSort (· ≤ ·)).getD (l.length / 2 - 1) 0 +
      (l.insertionSort (· ≤ ·)).getD (l.length / 2) 0) / 2

/-- Model of `rstats`'s `Vecops::minmax().max` on a slice of `f64`: the
maximum of the values.  (`aggregate` only applies it to a non-empty list;
on the empty list the junk value `0` is returned.) -/
def listMax : List ℚ → ℚ
  | [] => 0
  | x :: xs => xs.foldl max x

/-- Specification-side characterisation of a statistical median of a list of
values: at least half of the values are `≤ v` and at least half are `≥ v`. -/
def IsStatMedian (v : ℚ) (l : List ℚ) : Prop :=
  l.length ≤ 2 * l.countP (fun x => decide (x ≤ v)) ∧
  l.length ≤ 2 * l.countP (fun x => decide (v ≤ x))

/-- Embedding of `aggregate` (src/metrics.rs, lines 78-108).  The source
guards with `series.is_empty()`, returning `None`; on a non-empty series it
takes the median of the cpu and mem utilizations, the maximum of the max-mem
utilizations, the timestamp of `series[series.len() - 1]` (the last
element), and `series.len() as u32` as `sample_count` — a truncating cast,
modelled as reduction modulo `2 ^ 32`. -/
def aggregate : List Measurement → Option Measurement
  | [] => none
  | a :: l =>
    some
      { timestamp := ((a :: l).getLast (List.cons_ne_nil a l)).timestamp
        cpu_utilization := median ((a :: l).map Measurement.cpu_utilization)
        mem_utilization := median ((a :: l).map Measurement.mem_utilization)
        max_mem_utilization := listMax ((a :: l).map Measurement.max_mem_utilization)
        sample_count := (a :: l).length % 2 ^ 32 }

/-- C3: aggregate applied to the empty series returns no result (`none`),
not an error. -/
theorem aggregate_empty_none : aggregate [] = none := rfl

/-- In a sorted list, earlier entries are bounded by later entries. -/
theorem sorted_get_mono (s : List ℚ) (hs : s.Sorted (· ≤ ·)) (i j : Fin s.length)
    (hij : (i : ℕ) ≤ (j : ℕ)) : s.get i ≤ s.get j :=
  List.Sorted.rel_get_of_le hs hij

/-- In a sorted list, the entry at position `i` has at least `i + 1` entries
`≤` it and at least `length - i` entries `≥` it. -/
theorem sorted_count_getD (s : List ℚ) (hs : s.Sorted (· ≤ ·)) (i : Nat)
    (hi : i < s.length) :
    i + 1 ≤ s.countP (fun x => decide (x ≤ s.getD i 0)) ∧
    s.length - i ≤ s.countP (fun x => decide (s.getD i 0 ≤ x)) := by
  rw [List.getD_eq_getElem _ _ hi]
  have hd : s.drop i = s.get ⟨i, hi⟩ :: s.drop (i + 1) := by
    exact List.drop_eq_getElem_cons hi
  have hsplit := List.take_append_drop i s
  have hmem : s.get ⟨i, hi⟩ ∈ s.drop i := by
    rw [hd]; exact List.mem_cons_self _ _
  have hpair : List.Pairwise (· ≤ ·) (s.take i ++ s.drop i) := by
    rw [hsplit]; exact hs
  have hcross := (List.pairwise_append.mp hpair).2.2
  have hlent : (s.take i).length = i := by
    rw [List.length_take]; exact min_eq_left hi.le
  have hdrops : List.Sorted (· ≤ ·) (s.drop i) :=
    List.Pairwise.sublist (List.drop_sublist i s) hs
  have hall : ∀ b ∈ s.drop i, s.get ⟨i, hi⟩ ≤ b := by
    rw [hd] at hdrops ⊢
    intro b hb
    rcases List.mem_cons.mp hb with hb | hb
    · rw [hb]
    · exact (List.sorted_cons.mp hdrops).1 b hb
  constructor
  · have htake :
        List.countP (fun x => decide (x ≤ s.get ⟨i, hi⟩)) (s.take i)
          = (s.take i).length := by
      rw [List.countP_eq_length]
      intro a ha
      simpa using hcross a ha _ hmem
    have hdropc :
        0 < List.countP (fun x => decide (x ≤ s.get ⟨i, hi⟩)) (s.drop i) :=
      List.countP_pos_iff.mpr ⟨s.get ⟨i, hi⟩, hmem, by simp⟩
    have happ :=
      List.countP_append (fun x => decide (x ≤ s.get ⟨i, hi⟩)) (s.take i) (s.drop i)
    rw [hsplit] at happ
    simp only [List.get_eq_getElem] at htake hdropc happ ⊢
    omega
  · have hdropfull :
        List.countP (fun x => decide (s.get ⟨i, hi⟩ ≤ x)) (s.drop i)
          = (s.drop i).length := by
      rw [List.countP_eq_length]
      intro a ha
      simpa using hall a ha
    have hlend : (s.drop i).length = s.length - i := List.length_drop i s
    have happ :=
      List.countP_append (fun x => decide (s.get ⟨i, hi⟩ ≤ x)) (s.take i) (s.drop i)
    rw [hsplit] at happ
    simp only [List.get_eq_getElem] at hdropfull happ ⊢
    omega

/-- The value computed by `median` is a statistical median of the list: at
least half of the values lie on each side of it. -/
theorem median_is_stat_median (l : List ℚ) (h : l ≠ []) :
    IsStatMedian (median l) l := by
  have hperm : (l.insertionSort (· ≤ ·)).Perm l := List.perm_insertionSort _ l
  have hlen : (l.insertionSort (· ≤ ·)).length = l.length := hperm.length_eq
  have hsort : (l.insertionSort (· ≤ ·)).Sorted (· ≤ ·) :=
    List.sorted_insertionSort _ l
  have hn : 0 < l.length := List.length_pos.mpr h
  unfold IsStatMedian
  by_cases hpar : l.length % 2 = 1
  · have hk : l.length / 2 < (l.insertionSort (· ≤ ·)).length := by
      rw [hlen]; omega
    have hmed : median l = (l.insertionSort (· ≤ ·)).getD (l.length / 2) 0 := by
      simp only [median, if_pos hpar]
    obtain ⟨h1, h2⟩ := sorted_count_getD _ hsort (l.length / 2) hk
    rw [hmed, ← hperm.countP_eq, ← hperm.countP_eq]
    omega
  · have h2k : l.length / 2 < (l.insertionSort (· ≤ ·)).length := by
      rw [hlen]; omega
    have h1k : l.length / 2 - 1 < (l.insertionSort (· ≤ ·)).length := by
      rw [hlen]; omega
    have hmed : median l =
        ((l.insertionSort (· ≤ ·)).getD (l.length / 2 - 1) 0 +
          (l.insertionSort (· ≤ ·)).getD (l.length / 2) 0) / 2 := by
      simp only [median, if_neg hpar]
    have hab : (l.insertionSort (· ≤ ·)).getD (l.length / 2 - 1) 0 ≤
        (l.insertionSort (· ≤ ·)).getD (l.length / 2) 0 := by
      rw [List.getD_eq_getElem _ _ h1k, List.getD_eq_getElem _ _ h2k]
      have hmono := sorted_get_mono _ hsort ⟨_, h1k⟩ ⟨_, h2k⟩ (Nat.sub_le _ _)
      simpa [List.get_eq_getElem] using hmono
    obtain ⟨hA, _⟩ := sorted_count_getD _ hsort (l.length / 2 - 1) h1k
    obtain ⟨_, hB⟩ := sorted_count_getD _ hsort (l.length / 2) h2k
    constructor
    · have hmono : List.countP
          (fun x => decide (x ≤ (l.insertionSort (· ≤ ·)).getD (l.length / 2 - 1) 0))
          (l.insertionSort (· ≤ ·)) ≤
        List.countP (fun x => decide (x ≤ median l)) (l.insertionSort (· ≤ ·)) := by
        apply List.countP_mono_left
        intro x _ hx
        simp only [decide_eq_true_eq] at hx ⊢
        rw [hmed]
        linarith
      rw [← hperm.countP_eq]
      omega
    · have hmono : List.countP
          (fun x => decide ((l.insertionSort (· ≤ ·)).getD (l.length / 2) 0 ≤ x))
          (l.insertionSort (· ≤ ·)) ≤
        List.countP (fun x => decide (median l ≤ x)) (l.insertionSort (· ≤ ·)) := by
        apply List.countP_mono_left
        intro x _ hx
        simp only [decide_eq_true_eq] at hx ⊢
        rw [hmed]
        linarith
      rw [← hperm.countP_eq]
      omega

/-- Folding `max` over a list yields the start value or a list element. -/
theorem foldl_max_eq_or_mem (xs : List ℚ) (x : ℚ) :
    xs.foldl max x = x ∨ xs.foldl max x ∈ xs := by
  induction xs generalizing x with
  | nil => exact Or.inl rfl
  | cons y ys ih =>
    rcases ih (max x y) with h | h
    · rcases max_choice x y with hm | hm
      · exact Or.inl (by rw [List.foldl_cons, h, hm])
      · exact Or.inr (by rw [List.foldl_cons, h, hm]; exact List.mem_cons_self y ys)
    · exact Or.inr (List.mem_cons_of_mem y h)

/-- Folding `max` over a list bounds the start value and every element. -/
theorem le_foldl_max (xs : List ℚ) (x : ℚ) :
    x ≤ xs.foldl max x ∧ ∀ v ∈ xs, v ≤ xs.foldl max x := by
  induction xs generalizing x with
  | nil => exact ⟨le_refl x, by intro v hv; cases hv⟩
  | cons y ys ih =>
    obtain ⟨h1, h2⟩ := ih (max x y)
    rw [List.foldl_cons]
    refine ⟨le_trans (le_max_left x y) h1, ?_⟩
    intro v hv
    rcases List.mem_cons.mp hv with hv | hv
    · exact le_trans (hv ▸ le_max_right x y) h1
    · exact h2 v hv

/-- On a non-empty list, `listMax` returns one of the elements. -/
theorem listMax_mem (l : List ℚ) (h : l ≠ []) : listMax l ∈ l := by
  cases l with
  | nil => exact absurd rfl h
  | cons x xs =>
    simp only [listMax]
    rcases foldl_max_eq_or_mem xs x with h1 | h1
    · rw [h1]; exact List.mem_cons_self x xs
    · exact List.mem_cons_of_mem x h1

/-- The value computed by `listMax` bounds every element of the list. -/
theorem le_listMax (l : List ℚ) (v : ℚ) (hv : v ∈ l) : v ≤ listMax l := by
  cases l with
  | nil => cases hv
  | cons x xs =>
    simp only [listMax]
    rcases List.mem_cons.mp hv with h1 | h1
    · exact h1 ▸ (le_foldl_max xs x).1
    · exact (le_foldl_max xs x).2 v h1

/-- C1: for every non-empty series `S`, `aggregate S` returns a measurement
whose `cpu_utilization` is the statistical median of the per-sample
`cpu_utilization` values of `S` and whose `mem_utilization` is the
statistical median of the per-sample `mem_utilization` values of `S`
(`median` is the middle of the sorted values, or the mean of the two central
values for an even count, and `IsStatMedian` certifies the median
property). -/
theorem aggregate_cpu_mem_median (S : List Measurement) (h : S ≠ []) :
    ∃ m, aggregate S = some m ∧
      m.cpu_utilization = median (S.map Measurement.cpu_utilization) ∧
      m.mem_utilization = median (S.map Measurement.mem_utilization) ∧
      IsStatMedian m.cpu_utilization (S.map Measurement.cpu_utilization) ∧
      IsStatMedian m.mem_utilization (S.map Measurement.mem_utilization) := by
  cases S with
  | nil => exact absurd rfl h
  | cons a l =>
    refine ⟨_, rfl, rfl, rfl, ?_, ?_⟩
    · exact median_is_stat_median _ (by simp)
    · exact median_is_stat_median _ (by simp)

def mA : Measurement :=
  { timestamp := 1, mem_utilization := 1/2, max_mem_utilization := 1/2
    cpu_utilization := 3/10, sample_count := 1 }

def mB : Measurement :=
  { timestamp := 2, mem_utilization := 1/4, max_mem_utilization := 3/4
    cpu_utilization := 1/10, sample_count := 1 }

def mC : Measurement :=
  { timestamp := 3, mem_utilization := 1/3, max_mem_utilization := 2/3
    cpu_utilization := 1/5, sample_count := 1 }

/-- Witness for C1 at the concrete three-element series. -/
theorem aggregate_cpu_mem_median_witness :
    ∃ m, aggregate [mA, mB, mC] = some m ∧
      m.cpu_utilization = median ([mA, mB, mC].map Measurement.cpu_utilization) ∧
      m.mem_utilization = median ([mA, mB, mC].map Measurement.mem_utilization) ∧
      IsStatMedian m.cpu_utilization ([mA, mB, mC].map Measurement.cpu_utilization) ∧
      IsStatMedian m.mem_utilization ([mA, mB, mC].map Measurement.mem_utilization) :=
  aggregate_cpu_mem_median [mA, mB, mC] (by simp)

/-- On any non-empty series the aggregate's `sample_count` is the series
length reduced modulo `2 ^ 32` — the `as u32` cast of the source. -/
theorem aggregate_cons_sample_count (a : Measurement) (l : List Measurement) :
    ∃ m, aggregate (a :: l) = some m ∧
      m.sample_count = (l.length + 1) % 2 ^ 32 :=
  ⟨_, rfl, by simp⟩

/-- C2 counterexample: at a series of length `2 ^ 32` (`mA` followed by
`4294967295` further copies of itself) the `series.len() as u32` cast in
the source wraps: the aggregate's `sample_count` is `0`, not the series
length. -/
theorem aggregate_sample_count_wraps :
    ∃ m, aggregate (mA :: List.replicate 4294967295 mA) = some m ∧
      m.sample_count ≠ (mA :: List.replicate 4294967295 mA).length := by
  obtain ⟨m, hm, hc⟩ :=
    aggregate_cons_sample_count mA (List.replicate 4294967295 mA)
  refine ⟨m, hm, ?_⟩
  rw [hc, List.length_cons, List.length_replicate]
  norm_num

/-- C2 (amended): for every non-empty series `S`, `aggregate S` returns a
measurement whose `max_mem_utilization` is the maximum of the per-sample
`max_mem_utilization` values (it is one of those values and bounds them
all), whose `sample_count` is the length of `S` reduced modulo `2 ^ 32`
(the source casts `series.len()` to `u32`) — hence equal to the length
whenever the length is below `2 ^ 32` — and whose `timestamp` is the
timestamp of the last element of `S`. -/
theorem aggregate_max_count_timestamp (S : List Measurement) (h : S ≠ []) :
    ∃ m, aggregate S = some m ∧
      m.sample_count = S.length % 2 ^ 32 ∧
      (S.length < 2 ^ 32 → m.sample_count = S.length) ∧
      m.timestamp = (S.getLast h).timestamp ∧
      m.max_mem_utilization ∈ S.map Measurement.max_mem_utilization ∧
      ∀ v ∈ S.map Measurement.max_mem_utilization, v ≤ m.max_mem_utilization := by
  cases S with
  | nil => exact absurd rfl h
  | cons a l =>
    refine ⟨_, rfl, rfl, fun hlt => Nat.mod_eq_of_lt hlt, rfl, ?_, ?_⟩
    · exact listMax_mem _ (by simp)
    · exact fun v hv => le_listMax _ v hv

/-- Witness for C2 at a concrete two-element series, whose length is below
`2 ^ 32` so the sample count equals it exactly. -/
theorem aggregate_max_count_timestamp_witness :
    ∃ m, aggregate [mA, mB] = some m ∧
      m.sample_count = [mA, mB].length % 2 ^ 32 ∧
      m.sample_count = [mA, mB].length ∧
      m.timestamp = ([mA, mB].getLast (by simp)).timestamp ∧
      m.max_mem_utilization ∈ [mA, mB].map Measurement.max_mem_utilization ∧
      ∀ v ∈ [mA, mB].map Measurement.max_mem_utilization,
        v ≤ m.max_mem_utilization := by
  obtain ⟨m, h1, h2, h3, h4, h5, h6⟩ :=
    aggregate_max_count_timestamp [mA, mB] (by simp)
  exact ⟨m, h1, h2, h3 (by norm_num), h4, h5, h6⟩

/-- Embedding of `MemoryMeasurement` (src/memory.rs). -/
structure MemoryMeasurement where
  utilization : ℚ
  max_utilization : ℚ
deriving DecidableEq

/-- The raw inputs the sampler consumes, per the sampler-collaborator
interface: the per-core CPU usage percentages reported by `sysinfo`
(`Option ℚ` per core, `none` modelling an `f64` NaN reading), the host-wide
used and total memory byte counters, and the three optional cgroups v1 byte
counters (a read that fails is `none`). -/
structure RawInput where
  cpus : List (Option ℚ)
  used_memory : Nat
  total_memory : Nat
  cgroup_usage : Option Nat
  cgroup_max_usage : Option Nat
  cgroup_limit_raw : Option Nat
deriving DecidableEq

/-- Embedding of `read_cgroups_v1_usage` (src/memory.rs): the raw byte
counter when the file is readable and parses. -/
def read_cgroups_v1_usage (inp : RawInput) : Option Nat :=
  inp.cgroup_usage

/-- Embedding of `read_cgroups_v1_max_usage` (src/memory.rs). -/
def read_cgroups_v1_max_usage (inp : RawInput) : Option Nat :=
  inp.cgroup_max_usage

/-- Embedding of `read_cgroups_v1_limit` (src/memory.rs): the parsed
`hierarchical_memory_limit` value, accepted only when it is below
`0x7FFFFFFFFFFF0000` (larger values mean no limit is imposed and are
reported as an error). -/
def read_cgroups_v1_limit (inp : RawInput) : Option Nat :=
  match inp.cgroup_limit_raw with
  | some v => if v < 0x7FFFFFFFFFFF0000 then some v else none
  | none => none

/-- Embedding of `collect_memory_cgroups_v1` (src/memory.rs, lines 67-85):
when all three cgroup reads succeed, utilization is `usage / limit` and max
utilization is `max_usage / limit` (casts of `u64` counters to `f64`,
modelled as rationals; `ℚ` division by zero yields `0`, matching the
`f64` path `0.0 / 0.0 = NaN` composed with the sampler's NaN-to-zero
coercion for the only zero-limit case the proved theorems permit). -/
def collect_memory_cgroups_v1 (inp : RawInput) : Option MemoryMeasurement :=
  match read_cgroups_v1_usage inp, read_cgroups_v1_max_usage inp,
      read_cgroups_v1_limit inp with
  | some usage, some max_usage, some limit =>
    some
      { utilization := (usage : ℚ) / (limit : ℚ)
        max_utilization := (max_usage : ℚ) / (limit : ℚ) }
  | _, _, _ => none

/-- Embedding of `collect_memory_sysinfo` (src/memory.rs, lines 88-96):
host-wide `used / total`, with `max_utilization` equal to it. -/
def collect_memory_sysinfo (inp : RawInput) : MemoryMeasurement :=
  { utilization := (inp.used_memory : ℚ) / (inp.total_memory : ℚ)
    max_utilization := (inp.used_memory : ℚ) / (inp.total_memory : ℚ) }

/-- Embedding of `collect_memory` (src/memory.rs, lines 113-118): prefer
cgroups v1 accounting, fall back to `sysinfo`. -/
def collect_memory (inp : RawInput) : MemoryMeasurement :=
  match collect_memory_cgroups_v1 inp with
  | some mem => mem
  | none => collect_memory_sysinfo inp

/-- Sum of the per-core CPU percentages; `none` as soon as one reading is
NaN, mirroring NaN propagation through the `f64` sum in
`create_measurement`. -/
def cpuSum : List (Option ℚ) → Option ℚ
  | [] => some 0
  | x :: xs => x.bind (fun v => (cpuSum xs).map (fun s => v + s))

/-- Embedding of `nan_to_zero` (src/metrics.rs).  The rational model has no
NaN value for the memory fractions: the single NaN-producing case reachable
under the theorems below (`0.0 / 0.0` on a zero limit) is already `0` in
`ℚ`, so the coercion is the identity here. -/
def nan_to_zero (value : ℚ) : ℚ :=
  value

/-- Embedding of `create_measurement` (src/metrics.rs, lines 50-76): CPU
utilization is the sum of the per-core percentages divided by the core
count and by 100 — computed only when there is at least one core and the
sum is not NaN, and `0.0` otherwise; no clamping is applied.  Memory comes
from `collect_memory` through `nan_to_zero`; `sample_count` is `1`. -/
def create_measurement (now : Nat) (inp : RawInput) : Measurement :=
  let cpu_count := inp.cpus.length
  let cpu_avg : ℚ :=
    match cpuSum inp.cpus with
    | some s => if 0 < cpu_count then s / (cpu_count : ℚ) / 100 else 0
    | none => 0
  let memory_measurement := collect_memory inp
  { timestamp := now
    cpu_utilization := cpu_avg
    mem_utilization := nan_to_zero memory_measurement.utilization
    max_mem_utilization := nan_to_zero memory_measurement.max_utilization
    sample_count := 1 }

/-- A NaN-free sum of per-core percentages that are each within `[0, 100]`
lies within `[0, 100 * core count]`. -/
theorem cpuSum_bounds (l : List (Option ℚ))
    (h : ∀ x ∈ l, ∀ v, x = some v → 0 ≤ v ∧ v ≤ 100) :
    ∀ s, cpuSum l = some s → 0 ≤ s ∧ s ≤ 100 * l.length := by
  induction l with
  | nil =>
    intro s hs
    simp only [cpuSum, Option.some.injEq] at hs
    simp [← hs]
  | cons x xs ih =>
    intro s hs
    cases x with
    | none => simp [cpuSum] at hs
    | some v =>
      cases hxs : cpuSum xs with
      | none => rw [cpuSum, hxs] at hs; cases hs
      | some t =>
        rw [cpuSum, hxs] at hs
        simp at hs
        obtain ⟨hv0, hv100⟩ := h (some v) (List.mem_cons_self _ _) v rfl
        obtain ⟨ht0, ht100⟩ :=
          ih (fun y hy w hw => h y (List.mem_cons_of_mem _ hy) w hw) t hxs
        constructor
        · rw [← hs]; linarith
        · rw [← hs, List.length_cons]
          push_cast
          linarith

def rawOverload : RawInput :=
  { cpus := [some 150], used_memory := 0, total_memory := 1
    cgroup_usage := none, cgroup_max_usage := none, cgroup_limit_raw := none }

/-- C4 counterexample: a raw input whose single core reports a usage of
`150` percent (the `sysinfo` reading is not guaranteed to stay below 100)
produces `cpu_utilization = 3/2 > 1`: `create_measurement` applies no
clamping, so the claimed bound fails on this input. -/
theorem create_measurement_cpu_exceeds_one :
    ¬ ((create_measurement 0 rawOverload).cpu_utilization ≤ 1) := by
  norm_num [create_measurement, rawOverload, cpuSum, nan_to_zero]

/-- C4 (amended): `create_measurement` applies no clamping; its
`cpu_utilization` and `mem_utilization` lie in `[0, 1]` provided every
non-NaN per-core percentage lies in `[0, 100]`, host used memory does not
exceed total memory, and — when the cgroups v1 counters are used — the
usage counter does not exceed the accepted limit.  A NaN per-core reading
makes the whole CPU average fall back to `0`. -/
theorem create_measurement_bounds (now : Nat) (inp : RawInput)
    (hcpu : ∀ x ∈ inp.cpus, ∀ v, x = some v → 0 ≤ v ∧ v ≤ 100)
    (hsys : inp.used_memory ≤ inp.total_memory)
    (hcg : ∀ u lim, inp.cgroup_usage = some u →
      read_cgroups_v1_limit inp = some lim → u ≤ lim) :
    0 ≤ (create_measurement now inp).cpu_utilization ∧
    (create_measurement now inp).cpu_utilization ≤ 1 ∧
    0 ≤ (create_measurement now inp).mem_utilization ∧
    (create_measurement now inp).mem_utilization ≤ 1 ∧
    (cpuSum inp.cpus = none → (create_measurement now inp).cpu_utilization = 0) := by
  have hcpu_part : 0 ≤ (create_measurement now inp).cpu_utilization ∧
      (create_measurement now inp).cpu_utilization ≤ 1 := by
    cases hs : cpuSum inp.cpus with
    | none => simp [create_measurement, hs]
    | some s =>
      obtain ⟨h0, h100⟩ := cpuSum_bounds _ hcpu s hs
      by_cases hc : 0 < inp.cpus.length
      · simp only [create_measurement, hs, if_pos hc]
        constructor
        · exact div_nonneg (div_nonneg h0 (Nat.cast_nonneg _)) (by norm_num)
        · rw [div_div]
          apply div_le_one_of_le
          · rw [mul_comm]; exact h100
          · positivity
      · simp [create_measurement, hs, if_neg hc]
  have hmem_part : 0 ≤ (create_measurement now inp).mem_utilization ∧
      (create_measurement now inp).mem_utilization ≤ 1 := by
    have hmm : (create_measurement now inp).mem_utilization
        = (collect_memory inp).utilization := rfl
    rw [hmm]
    unfold collect_memory collect_memory_cgroups_v1 read_cgroups_v1_usage
      read_cgroups_v1_max_usage
    cases hu : inp.cgroup_usage with
    | none =>
      dsimp only [collect_memory_sysinfo]
      constructor
      · exact div_nonneg (Nat.cast_nonneg _) (Nat.cast_nonneg _)
      · rcases Nat.eq_zero_or_pos inp.total_memory with h0 | hpos
        · have hz : inp.used_memory = 0 :=
            Nat.le_antisymm (h0 ▸ hsys) (Nat.zero_le _)
          simp [hz, h0]
        · apply div_le_one_of_le
          · exact_mod_cast hsys
          · exact Nat.cast_nonneg _
    | some u =>
      cases hmx : inp.cgroup_max_usage with
      | none =>
        dsimp only [collect_memory_sysinfo]
        constructor
        · exact div_nonneg (Nat.cast_nonneg _) (Nat.cast_nonneg _)
        · rcases Nat.eq_zero_or_pos inp.total_memory with h0 | hpos
          · have hz : inp.used_memory = 0 :=
              Nat.le_antisymm (h0 ▸ hsys) (Nat.zero_le _)
            simp [hz, h0]
          · apply div_le_one_of_le
            · exact_mod_cast hsys
            · exact Nat.cast_nonneg _
      | some mu =>
        cases hlim : read_cgroups_v1_limit inp with
        | none =>
          dsimp only [collect_memory_sysinfo]
          constructor
          · exact div_nonneg (Nat.cast_nonneg _) (Nat.cast_nonneg _)
          · rcases Nat.eq_zero_or_pos inp.total_memory with h0 | hpos
            · have hz : inp.used_memory = 0 :=
                Nat.le_antisymm (h0 ▸ hsys) (Nat.zero_le _)
              simp [hz, h0]
            · apply div_le_one_of_le
              · exact_mod_cast hsys
              · exact Nat.cast_nonneg _
        | some lim =>
          dsimp only
          have hle : u ≤ lim := hcg u lim hu hlim
          constructor
          · exact div_nonneg (Nat.cast_nonneg _) (Nat.cast_nonneg _)
          · rcases Nat.eq_zero_or_pos lim with h0 | hpos
            · have hz : u = 0 := Nat.le_antisymm (h0 ▸ hle) (Nat.zero_le _)
              simp [hz, h0]
            · apply div_le_one_of_le
              · exact_mod_cast hle
              · exact Nat.cast_nonneg _
  have hnan : cpuSum inp.cpus = none →
      (create_measurement now inp).cpu_utilization = 0 := by
    intro hs
    simp [create_measurement, hs]
  exact ⟨hcpu_part.1, hcpu_part.2, hmem_part.1, hmem_part.2, hnan⟩

def rawNormal : RawInput :=
  { cpus := [some 50, some 100], used_memory := 1, total_memory := 2
    cgroup_usage := none, cgroup_max_usage := none, cgroup_limit_raw := none }

/-- Witness for the amended C4 at a concrete in-range input. -/
theorem create_measurement_bounds_witness :
    0 ≤ (create_measurement 0 rawNormal).cpu_utilization ∧
    (create_measurement 0 rawNormal).cpu_utilization ≤ 1 ∧
    0 ≤ (create_measurement 0 rawNormal).mem_utilization ∧
    (create_measurement 0 rawNormal).mem_utilization ≤ 1 ∧
    (cpuSum rawNormal.cpus = none →
      (create_measurement 0 rawNormal).cpu_utilization = 0) :=
  create_measurement_bounds 0 rawNormal
    (by
      intro x hx v hv
      have hx2 : x = some 50 ∨ x = some 100 := by simpa [rawNormal] using hx
      rcases hx2 with rfl | rfl <;>
        (injection hv with hv2; rw [← hv2]; constructor <;> norm_num))
    (by norm_num [rawNormal])
    (by intro u lim hu hlim; simp [rawNormal] at hu)

def rawCgroup : RawInput :=
  { cpus := [], used_memory := 0, total_memory := 1
    cgroup_usage := some 100, cgroup_max_usage := some 200,
    cgroup_limit_raw := some 400 }

/-- C5 counterexample: with cgroup accounting available (usage `100`, peak
usage `200`, limit `400`) the raw sample has `mem_utilization = 1/4` but
`max_mem_utilization = 1/2`, so the claimed equality fails. -/
theorem create_measurement_max_ne_mem :
    (create_measurement 0 rawCgroup).max_mem_utilization ≠
      (create_measurement 0 rawCgroup).mem_utilization := by
  norm_num [create_measurement, rawCgroup, collect_memory,
    collect_memory_cgroups_v1, read_cgroups_v1_usage, read_cgroups_v1_max_usage,
    read_cgroups_v1_limit, nan_to_zero, cpuSum]

/-- C5 (amended): a raw sample always has `sample_count = 1`; and its
`max_mem_utilization` equals its `mem_utilization` whenever cgroups v1
accounting is unavailable (the `sysinfo` fallback path).  When cgroup
accounting is available the two fields are `max_usage / limit` and
`usage / limit` and may differ. -/
theorem create_measurement_raw_invariant (now : Nat) (inp : RawInput) :
    (create_measurement now inp).sample_count = 1 ∧
    (collect_memory_cgroups_v1 inp = none →
      (create_measurement now inp).max_mem_utilization =
        (create_measurement now inp).mem_utilization) := by
  refine ⟨rfl, ?_⟩
  intro hnone
  have h1 : (create_measurement now inp).max_mem_utilization
      = (collect_memory inp).max_utilization := rfl
  have h2 : (create_measurement now inp).mem_utilization
      = (collect_memory inp).utilization := rfl
  rw [h1, h2]
  unfold collect_memory
  rw [hnone]
  rfl

def rawPlain : RawInput :=
  { cpus := [some 10], used_memory := 3, total_memory := 4
    cgroup_usage := none, cgroup_max_usage := none, cgroup_limit_raw := none }

/-- Witness for the amended C5 at a concrete `sysinfo`-path input. -/
theorem create_measurement_raw_invariant_witness :
    (create_measurement 0 rawPlain).sample_count = 1 ∧
    (create_measurement 0 rawPlain).max_mem_utilization =
      (create_measurement 0 rawPlain).mem_utilization :=
  ⟨(create_measurement_raw_invariant 0 rawPlain).1,
    (create_measurement_raw_invariant 0 rawPlain).2 rfl⟩

/-- Embedding of the `PublisherMessage` enum (src/lib.rs): a metric payload
or a shutdown request. -/
inductive PublisherMessage where
  | Metric (m : Measurement)
  | Quit
deriving DecidableEq

/-- Embedding of the `CollectorMessage` enum (src/lib.rs): an aggregation
trigger or a shutdown request. -/
inductive CollectorMessage where
  | Aggregation
  | Quit
deriving DecidableEq

def PublisherMessage.isQuit : PublisherMessage → Bool
  | .Quit => true
  | .Metric _ => false

def PublisherMessage.metricValue : PublisherMessage → Option Measurement
  | .Metric m => some m
  | .Quit => none

/-- Embedding of the `metrics_publisher` loop (src/lib.rs, lines 93-114).
The argument list is the sequence of messages the channel delivers, in
order; the end of the list models the channel closing (`recv` returning
`None`).  `sink k` is the success flag of the sink's `send` for the `k`-th
attempt; the loop records the attempt and its outcome, and a failure only
gets logged — the loop moves on.  On `Quit` the loop breaks, leaving the
remaining messages unprocessed.  The result is the trace of send attempts. -/
def metrics_publisher (sink : Nat → Bool) : Nat → List PublisherMessage →
    List (Measurement × Bool)
  | _, [] => []
  | k, .Metric m :: rest => (m, sink k) :: metrics_publisher sink (k + 1) rest
  | _, .Quit :: _ => []

/-- C6: for every delivered message sequence, every sink behaviour and every
attempt offset, the measurements the publisher loop attempts to send are
exactly the metric payloads that precede the first `Quit` — independent of
which sink calls fail.  Hence a failed send never stops the loop nor drops a
subsequent queued message, the loop exits on `Quit`, and messages queued
behind the `Quit` are never processed. -/
theorem metrics_publisher_failure_isolation (sink : Nat → Bool) (k : Nat)
    (msgs : List PublisherMessage) :
    (metrics_publisher sink k msgs).map Prod.fst =
      (msgs.takeWhile (fun x => ! x.isQuit)).filterMap
        PublisherMessage.metricValue := by
  induction msgs generalizing k with
  | nil => rfl
  | cons x rest ih =>
    cases x with
    | Metric m =>
      simp [metrics_publisher, PublisherMessage.isQuit,
        PublisherMessage.metricValue, ih (k + 1)]
    | Quit => simp [metrics_publisher, PublisherMessage.isQuit]

/-- The events `handle_shutdown` performs, in the order its straight-line
body performs them. -/
inductive ShutdownEvent where
  | sendCollector (m : CollectorMessage)
  | joinCollector
  | sendPublisher (m : PublisherMessage)
  | joinPublisher
  | success
deriving DecidableEq

/-- Embedding of `handle_shutdown` (src/lib.rs, lines 116-156) as its event
trace after the shutdown trigger fires: send `Aggregation` then `Quit` to
the collector, await the collector task, send `Quit` to the publisher,
await the publisher task, and only then return `Ok(())`. -/
def handle_shutdown : List ShutdownEvent :=
  [ShutdownEvent.sendCollector CollectorMessage.Aggregation,
    ShutdownEvent.sendCollector CollectorMessage.Quit,
    ShutdownEvent.joinCollector,
    ShutdownEvent.sendPublisher PublisherMessage.Quit,
    ShutdownEvent.joinPublisher,
    ShutdownEvent.success]

/-- C7: on a shutdown trigger the coordinator performs every step, strictly
in this order: `TriggerAggregation` to the collector, `Quit` to the
collector, wait for the collector task, `Quit` to the publisher, wait for
the publisher task; success is reported last, after both joins. -/
theorem handle_shutdown_ordering :
    ShutdownEvent.sendCollector CollectorMessage.Aggregation ∈ handle_shutdown ∧
    ShutdownEvent.sendCollector CollectorMessage.Quit ∈ handle_shutdown ∧
    ShutdownEvent.joinCollector ∈ handle_shutdown ∧
    ShutdownEvent.sendPublisher PublisherMessage.Quit ∈ handle_shutdown ∧
    ShutdownEvent.joinPublisher ∈ handle_shutdown ∧
    handle_shutdown.indexOf (ShutdownEvent.sendCollector CollectorMessage.Aggregation)
      < handle_shutdown.indexOf (ShutdownEvent.sendCollector CollectorMessage.Quit) ∧
    handle_shutdown.indexOf (ShutdownEvent.sendCollector CollectorMessage.Quit)
      < handle_shutdown.indexOf ShutdownEvent.joinCollector ∧
    handle_shutdown.indexOf ShutdownEvent.joinCollector
      < handle_shutdown.indexOf (ShutdownEvent.sendPublisher PublisherMessage.Quit) ∧
    handle_shutdown.indexOf (ShutdownEvent.sendPublisher PublisherMessage.Quit)
      < handle_shutdown.indexOf ShutdownEvent.joinPublisher ∧
    handle_shutdown.indexOf ShutdownEvent.joinPublisher
      < handle_shutdown.indexOf ShutdownEvent.success ∧
    handle_shutdown.getLast? = some ShutdownEvent.success := by
  decide

/-- The result of the collector's non-blocking `try_recv` on its control
channel: a message, an empty queue, or a disconnected (closed) channel. -/
inductive TryRecvResult where
  | ok (m : CollectorMessage)
  | empty
  | disconnected
deriving DecidableEq

/-- The collector's loop state: the sample buffer (`series`) and the trace
of aggregates forwarded downstream so far. -/
structure CollectorState where
  series : List Measurement
  sent : List Measurement
deriving DecidableEq

/-- Embedding of one iteration of the `metrics_collector` loop (src/lib.rs,
lines 53-88).  The iteration first appends the fresh sample to the buffer,
then performs the non-blocking control check; `pubOpen` tells whether the
downstream hand-off channel still has a receiver (`tx.send` succeeds).  On
`Aggregation` with a non-`None` aggregate the buffer is cleared and the
aggregate forwarded; a failed forward is logged and breaks the loop.  On
`Quit` the loop breaks.  An empty queue and a disconnected channel (which
the source only logs with a warning) both leave the loop running.  The
returned flag is `true` when the loop continues to the next tick. -/
def collector_step (pubOpen : Bool) (s : CollectorState) (meas : Measurement)
    (poll : TryRecvResult) : CollectorState × Bool :=
  let series := s.series ++ [meas]
  match poll with
  | .ok CollectorMessage.Aggregation =>
    match aggregate series with
    | some agg =>
      if pubOpen then (⟨[], s.sent ++ [agg]⟩, true)
      else (⟨[], s.sent⟩, false)
    | none => (⟨series, s.sent⟩, true)
  | .ok CollectorMessage.Quit => (⟨series, s.sent⟩, false)
  | .empty => (⟨series, s.sent⟩, true)
  | .disconnected => (⟨series, s.sent⟩, true)

/-- The `metrics_collector` loop over a sequence of ticks, each tick
providing the freshly sampled measurement and the control-poll outcome. -/
def metrics_collector (pubOpen : Bool) :
    CollectorState → List (Measurement × TryRecvResult) → CollectorState
  | s, [] => s
  | s, (m, p) :: rest =>
    match collector_step pubOpen s m p with
    | (s1, true) => metrics_collector pubOpen s1 rest
    | (s1, false) => s1

/-- C8 counterexample: when the collector's control channel is disconnected
(all senders dropped) the loop does not terminate — the step after a
`disconnected` poll reports that the loop continues, and a subsequent tick
is still processed. -/
theorem collector_continues_after_disconnect :
    (collector_step true ⟨[], []⟩ mA TryRecvResult.disconnected).2 = true ∧
    metrics_collector true ⟨[], []⟩
        [(mA, TryRecvResult.disconnected), (mB, TryRecvResult.empty)]
      = ⟨[mA, mB], []⟩ :=
  ⟨rfl, rfl⟩

/-- C8 (amended): cancellation is cooperative, but the two tasks differ.
The collector stops on observing `Quit`; the publisher stops on observing
`Quit` or when its input queue closes; the collector, however, does not stop
when its control channel is closed — a `disconnected` poll is only logged
and the loop keeps running. -/
theorem task_stop_conditions (pubOpen : Bool) (s : CollectorState)
    (m : Measurement) (sink : Nat → Bool) (k : Nat)
    (rest : List PublisherMessage) :
    (collector_step pubOpen s m (TryRecvResult.ok CollectorMessage.Quit)).2 = false ∧
    metrics_publisher sink k [] = [] ∧
    metrics_publisher sink k (PublisherMessage.Quit :: rest) = [] ∧
    (collector_step pubOpen s m TryRecvResult.disconnected).2 = true :=
  ⟨rfl, rfl, rfl, rfl⟩

/-- C9: on an `Aggregation` message the collector clears the buffer before
attempting the downstream forward, so when the hand-off channel is closed
(`pubOpen = false`) the step ends with an empty buffer, an unchanged
forward trace (the aggregated window is lost, neither retried nor
retained), and the loop stopped. -/
theorem collector_loses_window_on_send_failure (s : CollectorState)
    (m : Measurement) :
    collector_step false s m (TryRecvResult.ok CollectorMessage.Aggregation)
      = (⟨[], s.sent⟩, false) := by
  obtain ⟨ser, sent⟩ := s
  cases ser with
  | nil => rfl
  | cons a l => rfl

/-- With the hand-off channel open, a handled `Aggregation` trigger always
aggregates the (never-empty) buffer and forwards exactly one aggregate,
whose `sample_count` is the buffer length including the fresh sample,
reduced modulo `2 ^ 32` (the `as u32` cast). -/
theorem collector_step_aggregation_forward (s : CollectorState)
    (m : Measurement) :
    ∃ agg, aggregate (s.series ++ [m]) = some agg ∧
      agg.sample_count = (s.series.length + 1) % 2 ^ 32 ∧
      collector_step true s m (TryRecvResult.ok CollectorMessage.Aggregation)
        = (⟨[], s.sent ++ [agg]⟩, true) := by
  obtain ⟨ser, sent⟩ := s
  cases ser with
  | nil => exact ⟨_, rfl, rfl, rfl⟩
  | cons a l =>
    refine ⟨_, rfl, ?_, rfl⟩
    simp [aggregate, List.length_append]

def bigState : CollectorState :=
  { series := mA :: List.replicate 4294967294 mA, sent := [] }

/-- C10 counterexample: with a buffer already holding `2 ^ 32 - 1` samples,
the handled trigger forwards an aggregate whose `sample_count` is `0`
(the `series.len() as u32` cast wraps at buffer length `2 ^ 32`), refuting
`sample_count >= 1`. -/
theorem collector_trigger_wrapped_sample_count :
    ∃ agg, aggregate (bigState.series ++ [mB]) = some agg ∧
      agg.sample_count = 0 ∧
      ¬ 1 ≤ agg.sample_count ∧
      collector_step true bigState mB (TryRecvResult.ok CollectorMessage.Aggregation)
        = (⟨[], bigState.sent ++ [agg]⟩, true) := by
  obtain ⟨agg, h1, h2, h3⟩ := collector_step_aggregation_forward bigState mB
  have hser : bigState.series = mA :: List.replicate 4294967294 mA := rfl
  have hz : agg.sample_count = 0 := by
    rw [h2, hser, List.length_cons, List.length_replicate]
    norm_num
  refine ⟨agg, h1, hz, ?_, h3⟩
  rw [hz]
  norm_num

/-- C10 (amended): each collector iteration appends exactly one fresh
sample before the control check, so a handled `Aggregation` trigger always
sees a non-empty buffer: the aggregator never returns `none` there, and
(with the hand-off channel open) the step forwards exactly one aggregate
and the loop continues.  The aggregate's `sample_count` is the buffer
length including the fresh sample reduced modulo `2 ^ 32` (the source's
`as u32` cast), and hence is at least 1 whenever that length is below
`2 ^ 32`. -/
theorem collector_trigger_forwards_aggregate (s : CollectorState)
    (m : Measurement) :
    ∃ agg, aggregate (s.series ++ [m]) = some agg ∧
      agg.sample_count = (s.series.length + 1) % 2 ^ 32 ∧
      (s.series.length + 1 < 2 ^ 32 → 1 ≤ agg.sample_count) ∧
      collector_step true s m (TryRecvResult.ok CollectorMessage.Aggregation)
        = (⟨[], s.sent ++ [agg]⟩, true) := by
  obtain ⟨agg, h1, h2, h3⟩ := collector_step_aggregation_forward s m
  refine ⟨agg, h1, h2, ?_, h3⟩
  intro hlt
  rw [h2, Nat.mod_eq_of_lt hlt]
  omega

/-- Witness for the amended C10 at a concrete one-sample buffer. -/
theorem collector_trigger_forwards_aggregate_witness :
    ∃ agg, aggregate ((CollectorState.mk [mA] []).series ++ [mB]) = some agg ∧
      agg.sample_count = ((CollectorState.mk [mA] []).series.length + 1) % 2 ^ 32 ∧
      1 ≤ agg.sample_count ∧
      collector_step true (CollectorState.mk [mA] []) mB
          (TryRecvResult.ok CollectorMessage.Aggregation)
        = (⟨[], (CollectorState.mk [mA] []).sent ++ [agg]⟩, true) := by
  obtain ⟨agg, h1, h2, h3, h4⟩ :=
    collector_trigger_forwards_aggregate (CollectorState.mk [mA] []) mB
  exact ⟨agg, h1, h2, h3 (by norm_num), h4⟩
